import Mathlib

set_option maxRecDepth 2000000

/-!
Verification development for the MSDS section-segmentation engine
(`msds_section_extractor_all.py`).  The pure segmentation pipeline —
from the list of per-page texts (page-edge trimming and OCR already
applied by the external collaborator) to the section map — is embedded
shallowly below.  Text is modelled as `List Char`, Python regular
expressions over the catalog's fixed patterns are modelled by a small
backtracking matcher (`RE`), `difflib.SequenceMatcher.ratio` is modelled
exactly (the strings compared are always shorter than 200 characters, so
difflib's autojunk heuristic never fires), and floating-point ratio
comparisons are modelled as exact rational comparisons (the rationals
involved have denominators far too small for double rounding to cross
any of the fixed thresholds 0.78, 0.5, 0.30, 0.10).
-/

namespace Msds

/-- Codepoint of a character. -/
def cp (c : Char) : Nat := c.toNat

/-- Python `\s` for `str` patterns (Unicode whitespace). -/
def isPySpace (c : Char) : Bool :=
  let n := cp c
  n == 32 || n == 9 || n == 10 || n == 13 || n == 11 || n == 12 ||
  (28 ≤ n && n ≤ 31) || n == 0x85 || n == 0xA0 || n == 0x1680 ||
  (0x2000 ≤ n && n ≤ 0x200A) || n == 0x2028 || n == 0x2029 ||
  n == 0x202F || n == 0x205F || n == 0x3000

/-- The character class `[\s  -​]` (the `WS` class of the source). -/
def isWsCls (c : Char) : Bool := isPySpace c || (0x2000 ≤ cp c && cp c ≤ 0x200B)

/-- The class `[  -​]` that the source replaces by a plain space. -/
def isSpecialWs (c : Char) : Bool := cp c == 0xA0 || (0x2000 ≤ cp c && cp c ≤ 0x200B)

/-- The word-separator class `sep` of the source: `[\s  -​\.\-·・,／/]`. -/
def isSepCls (c : Char) : Bool :=
  isWsCls c || c == '.' || c == '-' || c == '·' || c == '・' || c == ',' ||
  c == '／' || c == '/'

/-- The `lead` junk class accepted before a section number. -/
def isLeadCls (c : Char) : Bool :=
  isWsCls c || c == '`' || cp c == 0xFEFF || c == '"' || cp c == 39 ||
  c == '“' || c == '”' || c == '‘' || c == '’' || c == '·' || c == '•' ||
  c == '–' || c == '—' || c == '-'

/-- The punctuation class accepted after a section number: `[\.\)\-:：．。]`. -/
def isPuncCls (c : Char) : Bool :=
  c == '.' || c == ')' || c == '-' || c == ':' || c == '：' || c == '．' || c == '。'

def isDigitCh (c : Char) : Bool := 48 ≤ cp c && cp c ≤ 57

def isAsciiUpper (c : Char) : Bool := 65 ≤ cp c && cp c ≤ 90

def isAsciiAlphaCh (c : Char) : Bool :=
  isAsciiUpper c || (97 ≤ cp c && cp c ≤ 122)

/-- Python `\w` restricted to the scripts appearing in this catalog
(ASCII alphanumerics, underscore, Hangul syllables and jamo). -/
def isWordCh (c : Char) : Bool :=
  isAsciiAlphaCh c || isDigitCh c || cp c == 95 ||
  (0xAC00 ≤ cp c && cp c ≤ 0xD7A3) || (0x1100 ≤ cp c && cp c ≤ 0x11FF) ||
  (0x3131 ≤ cp c && cp c ≤ 0x318E)

def lowerCh (c : Char) : Char :=
  if isAsciiUpper c then Char.ofNat (cp c + 32) else c

/-- Shorthand turning a string literal into the char-list text model. -/
def L (s : String) : List Char := s.data

/-- Model of `re.sub(r"[  -​]", " ", s)`. -/
def mapSpecialWs (s : List Char) : List Char :=
  s.map (fun c => if isSpecialWs c then ' ' else c)

/-- Model of `re.sub(r"[\s  -​]+", "", s)`. -/
def stripAllWs (s : List Char) : List Char := s.filter (fun c => !(isWsCls c))

/-- Model of `re.sub(r"\s+", "", s)` (note: `​` is not Python `\s`). -/
def stripPySpaceAll (s : List Char) : List Char := s.filter (fun c => !(isPySpace c))

/-- Model of Python `str.strip()`. -/
def pyStripEnds (s : List Char) : List Char :=
  ((s.dropWhile isPySpace).reverse.dropWhile isPySpace).reverse

def lowerAll (s : List Char) : List Char := s.map lowerCh

/-- `normalize_text`: lowercase then delete all whitespace. -/
def normalizeText (s : List Char) : List Char := stripPySpaceAll (lowerAll s)

/-- A line is blank when `line.strip()` is falsy. -/
def isBlank (s : List Char) : Bool := s.all isPySpace

/-- `pat` occurs as a contiguous subsequence of `s` (Python `pat in s`). -/
def containsSeq (pat : List Char) : List Char → Bool
  | [] => pat.isEmpty
  | c :: rest => pat.isPrefixOf (c :: rest) || containsSeq pat rest

/-- Split on a newline character, keeping empty pieces (Python `s.split("\n")`). -/
def splitNl (s : List Char) : List (List Char) :=
  s.foldr
    (fun c acc =>
      match acc with
      | [] => [[c]]
      | a :: as => if c == '\n' then [] :: a :: as else (c :: a) :: as)
    [[]]

/-- Join with newline characters (Python `"\n".join(lines)`). -/
def joinNl (lines : List (List Char)) : List Char := List.intercalate ['\n'] lines

/-- Maximal runs of word characters (`re.split(r"[^\w가-힣]+", s)` minus empties). -/
def wordTokens : List Char → List (List Char)
  | [] => []
  | c :: rest =>
    if isWordCh c then
      match wordTokens rest with
      | [] => [[c]]
      | t :: ts =>
        match rest with
        | [] => [[c]]
        | d :: _ => if isWordCh d then (c :: t) :: ts else [c] :: t :: ts
    else wordTokens rest

/-! ### A small regular-expression matcher

Only the constructs appearing in the source's patterns are needed:
character classes, Kleene stars of character classes, literals,
sequencing, alternation and option.  `RE.m r k s` decides whether some
prefix of `s` matches `r` with the continuation `k` accepting the rest;
this gives exactly Python's boolean `re.search` semantics for the
anchored patterns of the catalog. -/

inductive RE where
  | eps : RE
  | cls (f : Char → Bool) : RE
  | str (p : List Char) : RE
  | starC (f : Char → Bool) : RE
  | seq (a b : RE) : RE
  | alt (a b : RE) : RE
  | opt (a : RE) : RE

def starM (f : Char → Bool) (k : List Char → Bool) : List Char → Bool
  | [] => k []
  | c :: rest => k (c :: rest) || (f c && starM f k rest)

def strM : List Char → (List Char → Bool) → List Char → Bool
  | [], k, s => k s
  | _ :: _, _, [] => false
  | c :: p, k, d :: s => c == d && strM p k s

def RE.m : RE → (List Char → Bool) → List Char → Bool
  | RE.eps, k, s => k s
  | RE.cls _, _, [] => false
  | RE.cls f, k, c :: s => f c && k s
  | RE.str p, k, s => strM p k s
  | RE.starC f, k, s => starM f k s
  | RE.seq a b, k, s => a.m (fun s2 => b.m k s2) s
  | RE.alt a b, k, s => a.m k s || b.m k s
  | RE.opt a, k, s => a.m k s || k s

/-- Does `r` match starting at position 0 (an `^`-anchored `re.search`)? -/
def reMatchAt (r : RE) (s : List Char) : Bool := r.m (fun _ => true) s

/-- Does `r` match starting at some position (un-anchored `re.search`)? -/
def reSearch (r : RE) : List Char → Bool
  | [] => reMatchAt r []
  | c :: rest => reMatchAt r (c :: rest) || reSearch r rest

def reSeqList (l : List RE) : RE := l.foldr RE.seq RE.eps

def reAltList : List RE → RE
  | [] => RE.cls (fun _ => false)
  | [r] => r
  | r :: rest => RE.alt r (reAltList rest)

def lt (s : String) : RE := RE.str s.data

def wsStar : RE := RE.starC isWsCls

def pySpaceStar : RE := RE.starC isPySpace

def sepStar : RE := RE.starC isSepCls

def leadStar : RE := RE.starC isLeadCls

def digitPlus : RE := RE.seq (RE.cls isDigitCh) (RE.starC isDigitCh)

/-- Literal fragments joined by the `sep` separator class. -/
def sepChain (parts : List String) : RE :=
  reSeqList (List.intersperse sepStar (parts.map lt))

def numLit (n : Nat) : RE := RE.str (Nat.repr n).data

/-- The `sec(n)` heading-number prefix grammar of the source. -/
def secRE (n : Nat) : RE :=
  reSeqList
    [leadStar,
     reAltList
       [reSeqList [RE.opt (lt "["), numLit n, RE.opt (lt "]")],
        reSeqList [numLit n, wsStar, RE.opt (RE.cls isPuncCls), wsStar],
        reSeqList [RE.opt (lt "제"), wsStar, numLit n, wsStar,
                   RE.cls (fun c => c == '장' || c == '항')]],
     wsStar]

/-! ### The canonical section catalog -/

inductive SectionKey where
  | companyInfo
  | hazards
  | composition
  | firstAid
  | fireResponse
  | leakResponse
  | handlingStorage
  | exposureControl
  | physChem
  | stability
  | toxicity
  | ecoImpact
  | disposal
  | transport
  | regulatory
  | etcRemarks
deriving DecidableEq, Repr

open SectionKey

/-- `ALL_SECTION_KEYS` (also the insertion order of `find_section_patterns`). -/
def allKeys : List SectionKey :=
  [companyInfo, hazards, composition, firstAid, fireResponse, leakResponse,
   handlingStorage, exposureControl, physChem, stability, toxicity,
   ecoImpact, disposal, transport, regulatory, etcRemarks]

/-- `SECNUM`. -/
def secnum : SectionKey → Nat
  | companyInfo => 1
  | hazards => 2
  | composition => 3
  | firstAid => 4
  | fireResponse => 5
  | leakResponse => 6
  | handlingStorage => 7
  | exposureControl => 8
  | physChem => 9
  | stability => 10
  | toxicity => 11
  | ecoImpact => 12
  | disposal => 13
  | transport => 14
  | regulatory => 15
  | etcRemarks => 16

/-- `BOUNDARY_NEXT_NUMBER`, transcribed literally: sections 3–15 are mapped
to their successor number; sections 1, 2 and 16 have no entry. -/
def boundaryNext : SectionKey → Option Nat
  | composition => some 4
  | firstAid => some 5
  | fireResponse => some 6
  | leakResponse => some 7
  | handlingStorage => some 8
  | exposureControl => some 9
  | physChem => some 10
  | stability => some 11
  | toxicity => some 12
  | ecoImpact => some 13
  | disposal => some 14
  | transport => some 15
  | regulatory => some 16
  | _ => none

/-- `PROB_KEYS` (must-group, also-group) keyed by section number. -/
def probKeys : Nat → List (List Char) × List (List Char)
  | 1 => ([L "화학", L "제품", L "회사", L "정보", L "제품명"], [L "제품", L "회사", L "정보"])
  | 2 => ([L "유해", L "위험"], [L "유해성", L "위험성", L "유해위험"])
  | 3 => ([L "구성", L "성분", L "함량", L "함유", L "조성"], [L "성분", L "함량", L "함유", L "조성"])
  | 4 => ([L "응급", L "조치"], [L "응급조치", L "조치요령"])
  | 5 => ([L "폭발", L "화재"], [L "폭발", L "화재", L "대처"])
  | 6 => ([L "누출", L "사고"], [L "누출", L "유출", L "대처"])
  | 7 => ([L "취급", L "저장"], [L "취급", L "저장", L "보관"])
  | 8 => ([L "노출", L "보호구"], [L "노출", L "방지", L "개인", L "보호구"])
  | 9 => ([L "물리", L "화학", L "특성", L "특징"], [L "물리화학", L "특성", L "특징"])
  | 10 => ([L "안정", L "반응"], [L "안정성", L "반응성"])
  | 11 => ([L "독성"], [L "독성", L "독성정보"])
  | 12 => ([L "환경"], [L "환경", L "영향"])
  | 13 => ([L "폐기"], [L "폐기", L "주의"])
  | 14 => ([L "운송"], [L "운송", L "사항"])
  | 15 => ([L "법적", L "법규"], [L "규제", L "규졔", L "규제현황", L "규졔현황"])
  | 16 => ([L "참고", L "사항"], [L "기타", L "그 밖의", L "참고사항"])
  | _ => ([], [])

/-- `FUZZY_CANDIDATES`. -/
def fuzzyCands : SectionKey → List (List Char)
  | companyInfo => [L "화학 제품과 회사", L "화학제품", L "화학 회사", L "회사 정보"]
  | hazards => [L "유해 위험성", L "위험 유해성", L "유해성", L "위험성", L "유해 위험"]
  | composition => [L "구성 성분", L "성분표", L "성분 함유량", L "성분 함량", L "조성 성분"]
  | firstAid => [L "응급조치요령", L "응급 조치 요령", L "응급조치", L "응급 조치"]
  | fireResponse => [L "폭발 화재 시 대처방법", L "폭발 및 화재시 대처방법", L "폭발 화재 대처", L "화재 폭발 조치"]
  | leakResponse => [L "누출사고시 대처방법", L "누출 사고 대처", L "유출사고 대처"]
  | handlingStorage => [L "취급 및 저장방법", L "취급 및 보관", L "저장방법"]
  | exposureControl => [L "노출방지 및 개인보호구", L "노출 방지", L "개인 보호구"]
  | physChem => [L "물리 화학적 특성", L "물리 화학적 특징", L "물리. 화학적 특성", L "물리·화학적 특성"]
  | stability => [L "안정성 및 반응성", L "안정성", L "반응성"]
  | toxicity => [L "독성에 관한 정보", L "독성 정보", L "독성"]
  | ecoImpact => [L "환경에 미치는 영향", L "환경 영향"]
  | disposal => [L "폐기시 주의사항", L "폐기 시 주의사항", L "폐기 방법"]
  | transport => [L "운송에 필요한 사항", L "운송에 관한 사항", L "운송 사항"]
  | regulatory => [L "법적 규제", L "법적 규제 현황", L "법규 규제", L "법규 규제 현황"]
  | etcRemarks => [L "기타 참고사항", L "기타 사항", L "기타 참고", L "그 밖의 참고사항", L "그 밖의 사항"]

/-- `TOC_HINT_WORDS`. -/
def tocHintWords : List (List Char) :=
  [L "목차", L "contents", L "table of contents", L "ghs-msds", L "물질 안전보건자료"]

/-- `TOC_SECTION_KEYS`. -/
def tocSectionKeys : List (List Char) :=
  [L "화학", L "회사", L "유해", L "위험", L "구성", L "응급", L "폭발", L "누출",
   L "취급", L "보관", L "노출", L "보호구", L "물리", L "화학적", L "안정성", L "반응성",
   L "독성", L "환경", L "폐기", L "운송", L "법적", L "규제", L "기타", L "참고"]

/-! ### Strategy-1 heading patterns (`find_section_patterns`) -/

def secP (n : Nat) (body : RE) : RE := RE.seq (secRE n) body

def dotCls : RE := RE.cls (fun c => c == '·' || c == '・' || c == '.')

def bodyS1a : RE :=
  RE.seq (sepChain ["화학", "제품", "과", "회사"])
    (RE.opt (RE.seq sepStar (sepChain ["에", "관한", "정보"])))

def bodyS2a : RE :=
  reSeqList [lt "유해", sepStar, lt "성", sepStar, RE.opt dotCls, sepStar, lt "위험", sepStar, lt "성"]

def bodyS2e : RE :=
  reSeqList [lt "위험", sepStar, lt "성", sepStar, RE.opt dotCls, sepStar, lt "유해", sepStar, lt "성"]

def bodyS2h : RE :=
  reSeqList [reAltList [lt "유해", lt "위험"], sepStar, lt "성", sepStar, lt "및", sepStar,
             reAltList [lt "유해", lt "위험"], sepStar, lt "성"]

def bodyS2i : RE :=
  reSeqList [reAltList [lt "유해", lt "위험"], sepStar, lt "및", sepStar,
             reAltList [lt "유해", lt "위험"], sepStar, lt "성"]

/-- `함유?{sep}?량|함량|조성` (the amount alternatives of section 3). -/
def amountAlt : RE :=
  reAltList [reSeqList [lt "함", RE.opt (lt "유"), sepStar, lt "량"], lt "함량", lt "조성"]

def bodyS3a : RE :=
  RE.seq (sepChain ["구성", "성분"])
    (RE.opt (reSeqList [sepStar, lt "의", sepStar, lt "명칭", sepStar, lt "및", sepStar, amountAlt]))

def bodyS3b : RE :=
  reSeqList [RE.opt (RE.seq (lt "구성") sepStar), lt "성분", sepStar,
             RE.opt (reAltList [lt "표", lt "정보"])]

def bodyS3c : RE :=
  reSeqList [lt "성분", sepStar, reAltList [lt "명", lt "명칭"], sepStar, lt "및", sepStar,
             reAltList [reSeqList [lt "함", RE.opt (lt "유"), sepStar, lt "량"], lt "함량"]]

def bodyS3d : RE :=
  reSeqList [lt "조성", sepStar,
             RE.opt (reAltList [reSeqList [lt "및", sepStar, lt "명칭"], lt "정보", lt "표"])]

def bodyS5a : RE :=
  reSeqList [reAltList [lt "폭발", lt "화재"], sepStar, lt "시", sepStar,
             reAltList [lt "대처", lt "조치"], sepStar, lt "방", RE.opt (lt "법")]

def bodyS6a : RE :=
  reSeqList [reAltList [lt "누출", lt "유출"], sepStar, lt "사고", sepStar, lt "시", sepStar,
             reAltList [lt "대처", lt "조치"], sepStar, lt "방", RE.opt (lt "법")]

def bodyS9a : RE :=
  reSeqList [lt "물리", sepStar, lt "화학", sepStar, lt "적", sepStar,
             reAltList [lt "특성", lt "특징"]]

def bodyS9b : RE :=
  reSeqList [lt "물리", sepStar, lt "화학", sepStar, reAltList [lt "특성", lt "특징"]]

def bodyS9c : RE :=
  reSeqList [lt "물리", sepStar, lt "적", sepStar, reAltList [lt "특성", lt "특징"]]

/-- `법적|법\s*규` (also reused with `법규` in the fallback regex). -/
def legalHead : RE := reAltList [lt "법적", reSeqList [lt "법", pySpaceStar, lt "규"]]

def bodyS15a : RE :=
  reSeqList [legalHead, sepStar, lt "규", RE.cls (fun c => c == '제' || c == '졔'),
             RE.opt (RE.seq sepStar (lt "현황"))]

def bodyS15b : RE :=
  reSeqList [RE.opt (reAltList [lt "관련", reSeqList [lt "기", pySpaceStar, lt "타"]]), sepStar,
             reAltList [lt "법", lt "규"], sepStar, lt "제"]

def bodyS15c : RE :=
  reSeqList [legalHead, sepStar, lt "규졔", RE.opt (RE.seq sepStar (lt "현황"))]

/-- The per-key strategy-1 line patterns of `find_section_patterns`. -/
def sectionPatterns : SectionKey → List RE
  | companyInfo =>
    [secP 1 bodyS1a, secP 1 (sepChain ["화학", "제품"]), secP 1 (sepChain ["제품", "명"]),
     secP 1 (sepChain ["화학", "회사"])]
  | hazards =>
    [secP 2 bodyS2a, secP 2 (sepChain ["유해", "위험", "성"]), secP 2 (sepChain ["유해", "성"]),
     secP 2 (sepChain ["유해", "위험"]), secP 2 bodyS2e, secP 2 (sepChain ["위험", "유해", "성"]),
     secP 2 (sepChain ["위험", "유해"]), secP 2 bodyS2h, secP 2 bodyS2i]
  | composition =>
    [secP 3 bodyS3a, secP 3 bodyS3b, secP 3 bodyS3c, secP 3 bodyS3d]
  | firstAid =>
    [secP 4 (reSeqList [lt "응급", sepStar, lt "조치", sepStar, RE.opt (reAltList [lt "요령", lt "방법"])]),
     secP 4 (sepChain ["응급", "조치"])]
  | fireResponse =>
    [secP 5 bodyS5a,
     secP 5 (reSeqList [lt "화재", sepStar, lt "및", sepStar, lt "폭발", sepStar, lt "시", sepStar,
                        reAltList [lt "대처", lt "조치"]])]
  | leakResponse =>
    [secP 6 bodyS6a,
     secP 6 (reSeqList [reAltList [lt "누출", lt "유출"], sepStar, reAltList [lt "대처", lt "조치"]])]
  | handlingStorage =>
    [secP 7 (sepChain ["취급", "및", "저장", "방법"]), secP 7 (sepChain ["취급", "및", "보관"])]
  | exposureControl =>
    [secP 8 (sepChain ["노출", "방지", "및", "개인", "보호구"]), secP 8 (sepChain ["노출", "방지"]),
     secP 8 (sepChain ["개인", "보호구"])]
  | physChem =>
    [secP 9 bodyS9a, secP 9 bodyS9b, secP 9 bodyS9c]
  | stability =>
    [secP 10 (sepChain ["안정", "성", "및", "반응", "성"]), secP 10 (sepChain ["안정", "성"]),
     secP 10 (sepChain ["반응", "성"])]
  | toxicity =>
    [secP 11 (sepChain ["독성", "에", "관한", "정보"]), secP 11 (sepChain ["독성", "정보"])]
  | ecoImpact =>
    [secP 12 (sepChain ["환경", "에", "미치는", "영향"]), secP 12 (sepChain ["환경", "영향"])]
  | disposal =>
    [secP 13 (sepChain ["폐기", "시", "주의", "사항"]), secP 13 (sepChain ["폐기", "방법"])]
  | transport =>
    [secP 14 (sepChain ["운송", "에", "필요한", "사항"]), secP 14 (sepChain ["운송", "에", "관한", "사항"])]
  | regulatory =>
    [secP 15 bodyS15a, secP 15 bodyS15b, secP 15 bodyS15c]
  | etcRemarks =>
    [secP 16 (sepChain ["기타", "참고", "사항"]), secP 16 (sepChain ["기타", "사항"]),
     secP 16 (sepChain ["그", "밖", "의", "참고", "사항"]),
     secP 16 (sepChain ["그", "밖", "의", "사항"])]

/-! ### Multi-line fallback patterns (`FALLBACK_HEAD_RXS`) -/

def fallbackRx : SectionKey → Option RE
  | companyInfo =>
    some (secP 1 (reAltList [bodyS1a, sepChain ["화학", "제품"], sepChain ["제품", "명"],
                             sepChain ["화학", "회사"]]))
  | hazards =>
    some (secP 2 (reAltList [bodyS2a, sepChain ["유해", "위험", "성"], sepChain ["유해", "성"],
                             sepChain ["유해", "위험"], bodyS2e, sepChain ["위험", "유해", "성"],
                             sepChain ["위험", "유해"], bodyS2h, bodyS2i]))
  | composition =>
    some (secP 3 (reAltList [bodyS3a, bodyS3b, bodyS3c,
                             RE.seq (lt "조성") (RE.starC (fun c => !(c == '\n')))]))
  | physChem =>
    some (secP 9 (reAltList [bodyS9a, bodyS9b, bodyS9c]))
  | regulatory =>
    some (secP 15 (reSeqList [reAltList [lt "법적", lt "법규"], sepStar, lt "규",
                              RE.cls (fun c => c == '제' || c == '졔'),
                              RE.opt (RE.seq sepStar (lt "현황"))]))
  | _ => none

/-- The iteration (insertion) order of `FALLBACK_HEAD_RXS`. -/
def fallbackKeys : List SectionKey := [companyInfo, hazards, composition, physChem, regulatory]

/-! ### difflib `SequenceMatcher` (junk-free, as for strings under 200 chars)

`flm` is `find_longest_match`: the row-by-row scan keeping, for each `j`,
the length of the longest match ending at `(i, j)`, recording the first
block to attain each new best length (difflib uses a strict `>` update),
followed by the two extension loops.  `matchTotal` sums the sizes of all
matching blocks, which is exactly the numerator data of `ratio`. -/

structure FlmBest where
  bi : Nat
  bj : Nat
  bk : Nat
deriving Repr

def lookupJ (j : Nat) : List (Nat × Nat) → Nat
  | [] => 0
  | (a, b) :: rest => if a == j then b else lookupJ j rest

def flmRowGo (ai : Char) (b : List Char) (i : Nat) (old : List (Nat × Nat)) :
    Nat → Nat → List (Nat × Nat) → FlmBest → List (Nat × Nat) × FlmBest
  | _, 0, acc, best => (acc, best)
  | j, fuel + 1, acc, best =>
    if b.getD j (Char.ofNat 0) == ai then
      let prev := if j == 0 then 0 else lookupJ (j - 1) old
      let k := prev + 1
      let best2 := if k > best.bk then ⟨i + 1 - k, j + 1 - k, k⟩ else best
      flmRowGo ai b i old (j + 1) fuel ((j, k) :: acc) best2
    else
      flmRowGo ai b i old (j + 1) fuel acc best

def flmRows (a b : List Char) (blo bhi : Nat) :
    Nat → Nat → List (Nat × Nat) → FlmBest → FlmBest
  | _, 0, _, best => best
  | i, fuel + 1, old, best =>
    let st := flmRowGo (a.getD i (Char.ofNat 0)) b i old blo (bhi - blo) [] best
    flmRows a b blo bhi (i + 1) fuel st.1 st.2

def extLow (a b : List Char) (alo blo : Nat) : Nat → FlmBest → FlmBest
  | 0, best => best
  | fuel + 1, best =>
    if alo < best.bi && blo < best.bj &&
        a.getD (best.bi - 1) (Char.ofNat 0) == b.getD (best.bj - 1) (Char.ofNat 1) then
      extLow a b alo blo fuel ⟨best.bi - 1, best.bj - 1, best.bk + 1⟩
    else best

def extHigh (a b : List Char) (ahi bhi : Nat) : Nat → FlmBest → FlmBest
  | 0, best => best
  | fuel + 1, best =>
    if best.bi + best.bk < ahi && best.bj + best.bk < bhi &&
        a.getD (best.bi + best.bk) (Char.ofNat 0) == b.getD (best.bj + best.bk) (Char.ofNat 1) then
      extHigh a b ahi bhi fuel ⟨best.bi, best.bj, best.bk + 1⟩
    else best

def flm (a b : List Char) (alo ahi blo bhi : Nat) : FlmBest :=
  let r1 := flmRows a b blo bhi alo (ahi - alo) [] ⟨alo, blo, 0⟩
  let r2 := extLow a b alo blo r1.bi r1
  extHigh a b ahi bhi ahi r2

/-- Total size of all matching blocks (the `M` of `ratio = 2M/T`). -/
def matchTotal (a b : List Char) : Nat → Nat → Nat → Nat → Nat → Nat
  | 0, _, _, _, _ => 0
  | fuel + 1, alo, ahi, blo, bhi =>
    let r := flm a b alo ahi blo bhi
    if r.bk == 0 then 0
    else
      r.bk + matchTotal a b fuel alo r.bi blo r.bj +
        matchTotal a b fuel (r.bi + r.bk) ahi (r.bj + r.bk) bhi

def simM (a b : List Char) : Nat :=
  matchTotal a b (a.length + b.length + 1) 0 a.length 0 b.length

def simT (a b : List Char) : Nat := a.length + b.length

/-- `ratio(a, b) ≥ 0.78`, as an exact rational comparison
(`_calculate_ratio` returns 1.0 on two empty sequences). -/
def simGe78 (a b : List Char) : Bool :=
  let t := simT a b
  if t == 0 then true else decide (78 * t ≤ 200 * simM a b)

/-- `ratio(m1, t1) > ratio(m2, t2)` on the exact rationals. -/
def fracGt (m1 t1 m2 t2 : Nat) : Bool :=
  let a1 := if t1 == 0 then (1, 1) else (2 * m1, t1)
  let a2 := if t2 == 0 then (1, 1) else (2 * m2, t2)
  decide (a2.1 * a1.2 < a1.1 * a2.2)

/-- `similar(a, b) >= 0.78` (`similar` strips the whitespace class first). -/
def similarGe78 (a b : List Char) : Bool := simGe78 (stripAllWs a) (stripAllWs b)

/-- `contains_near(line, targets)`: exact substring or per-token similarity. -/
def containsNear (line : List Char) (targets : List (List Char)) : Bool :=
  let hay := stripPySpaceAll line
  targets.any (fun t =>
    containsSeq t hay ||
    (wordTokens hay).any (fun w => similarGe78 w (stripPySpaceAll t)))

/-- `is_probably_section_line` (strategy 2: number plus AND-gated keywords). -/
def isProbablySectionLine (line : List Char) (n : Nat) : Bool :=
  let s := mapSpecialWs line
  reMatchAt (secRE n) s && (containsNear s (probKeys n).1 && containsNear s (probKeys n).2)

/-- `is_probably_legal_section_line` (the section-15 typo-tolerant detector). -/
def isProbablyLegalSectionLine (line : List Char) : Bool :=
  let s := mapSpecialWs line
  reMatchAt (secRE 15) s && containsNear s [L "법적", L "법규"] &&
    containsNear s [L "규제", L "규제현황", L "규졔", L "규졔현황"]

/-- `fuzzy_find_section_line` over already-stripped lines: the single
best-scoring line wins (strict improvement, so the earliest best index is
kept), accepted only at ratio ≥ 0.78. -/
def fuzzyFindSectionLine (strippedLines : List (List Char)) (cands : List (List Char)) : Int :=
  let fin := strippedLines.enum.foldl
    (fun (st : Int × Nat × Nat) p =>
      cands.foldl
        (fun (st2 : Int × Nat × Nat) cand =>
          let lc := stripAllWs p.2
          let cc := stripAllWs cand
          let m := simM lc cc
          let t := simT lc cc
          if fracGt m t st2.2.1 st2.2.2 then ((p.1 : Int), m, t) else st2)
        st)
    ((-1 : Int), 0, 1)
  if (if fin.2.2 == 0 then true else decide (78 * fin.2.2 ≤ 200 * fin.2.1)) then fin.1 else -1

/-! ### Boilerplate header/footer detection (`is_header_line`) -/

def pageMarkNormRE : RE :=
  reSeqList [digitPlus, pySpaceStar, lt "/", pySpaceStar, digitPlus, pySpaceStar,
             reAltList [lt "페이지", lt "page"]]

def pageMark2NormRE : RE :=
  reSeqList [lt "page", pySpaceStar, digitPlus, pySpaceStar, lt "/", pySpaceStar, digitPlus]

def revMarkNormRE : RE :=
  reSeqList [lt "-", digitPlus, lt "/", digitPlus, lt "-", pySpaceStar, lt "rev."]

def revNormRE : RE := reSeqList [lt "rev.", pySpaceStar, digitPlus]

/-- `is_header_line`: the guard phrase wins, the two bare-title patterns are
anchored to the whole normalized line, every other pattern is searched as a
substring of the normalized line. -/
def isHeaderLine (line : List Char) : Bool :=
  let nz := normalizeText line
  if containsSeq (L "본msds는") nz then false
  else
    containsSeq (L "msds번호") nz || containsSeq (L "문서번호") nz ||
    containsSeq (L "개정일자") nz || containsSeq (L "개정번호") nz ||
    nz == L "물질안전보건자료" ||
    nz == L "materialsafetydatasheet" || nz == L "materialsafetydatasheets" ||
    containsSeq (L "ghs-msds") nz || containsSeq (L "ghsmsds") nz ||
    reSearch pageMarkNormRE nz || reSearch pageMark2NormRE nz ||
    reSearch revMarkNormRE nz || reSearch revNormRE nz ||
    containsSeq (L "copyright") nz || containsSeq (L "allrightsreserved") nz

/-- `remove_repeated_headers`: boilerplate detected among the first 10 lines
is removed everywhere (by normalized equality). -/
def removeRepeatedHeaders (lines : List (List Char)) : List (List Char) :=
  match lines with
  | [] => []
  | _ =>
    let hdr := ((lines.take 10).filter isHeaderLine).map normalizeText
    lines.filter (fun ln => !(hdr.contains (normalizeText ln)))

/-! ### TOC detection and removal -/

def dval (c : Char) : Nat := cp c - 48

def enumPunc (s : List Char) : Bool :=
  match s.dropWhile isPySpace with
  | c :: _ => c == '.' || c == ')' || c == ':'
  | [] => false

/-- The leading-enumeration grammar `^\s*(?:\[(\d{1,2})\]|(\d{1,2})\s*[\.\):])`
with its captured number (greedy two digits, then backtrack to one). -/
def parseEnumNum (l : List Char) : Option Nat :=
  match l.dropWhile isPySpace with
  | '[' :: rest =>
    (match rest with
     | d1 :: d2 :: ']' :: _ =>
       if isDigitCh d1 && isDigitCh d2 then some (10 * dval d1 + dval d2)
       else if isDigitCh d1 && d2 == ']' then some (dval d1)
       else none
     | d1 :: ']' :: _ => if isDigitCh d1 then some (dval d1) else none
     | _ => none)
  | d1 :: rest =>
    if isDigitCh d1 then
      match rest with
      | d2 :: rest2 =>
        if isDigitCh d2 then
          if enumPunc rest2 then some (10 * dval d1 + dval d2)
          else if enumPunc (d2 :: rest2) then some (dval d1)
          else none
        else if enumPunc (d2 :: rest2) then some (dval d1)
        else none
      | [] => none
    else none
  | [] => none

def isEnumLine (l : List Char) : Bool := (parseEnumNum l).isSome

/-- `is_toc_like_numbering`: the same grammar restricted to values 1–16. -/
def tocLikeNumbering (l : List Char) : Option Nat :=
  match parseEnumNum l with
  | some v => if 1 ≤ v && v ≤ 16 then some v else none
  | none => none

def maxList : List Nat → Nat
  | [] => 0
  | x :: xs => xs.foldl Nat.max x

/-- `is_toc_page`. -/
def isTocPage (text : List Char) : Bool :=
  if text.isEmpty then false
  else
    let t := pyStripEnds text
    let lns := (splitNl t).filter (fun ln => !(isBlank ln))
    let hint := tocHintWords.any (fun h => containsSeq (lowerAll h) (lowerAll t))
    let nums := lns.filterMap tocLikeNumbering
    let uniq := nums.dedup
    let kwHits := (lns.filter (fun ln => tocSectionKeys.any (fun kw => containsSeq kw ln))).length
    hint ||
      (uniq.length ≥ 6 && maxList uniq ≤ 16 &&
       10 * nums.length ≥ 3 * Nat.max 1 lns.length &&
       10 * kwHits ≥ Nat.max 1 lns.length)

/-- `would_match_any_section_head`: a strategy-1 hit for any canonical key. -/
def wouldMatchAnySectionHead (line : List Char) : Bool :=
  let lc := mapSpecialWs line
  allKeys.any (fun k => (sectionPatterns k).any (fun p => reMatchAt p lc))

/-- The block-level TOC conditions of `strip_toc_block` (run length ≥ 5,
at least 5 distinct numbers, maximum number ≤ 16, average raw length ≤ 40,
keyword fraction ≥ 1/2), with the float comparisons made exact. -/
def tocRunCond (buf : List (List Char)) : Bool :=
  let nums := buf.filterMap parseEnumNum
  let uniq := nums.dedup
  let n := buf.length
  let sumLen := (buf.map List.length).foldl (· + ·) 0
  let kwHits := (buf.filter (fun b => tocSectionKeys.any (fun kw => containsSeq kw b))).length
  n ≥ 5 && uniq.length ≥ 5 && maxList uniq ≤ 16 && sumLen ≤ 40 * n && 2 * kwHits ≥ n

theorem dropWhileLenLe (p : α → Bool) (l : List α) : (l.dropWhile p).length ≤ l.length := by
  induction l with
  | nil => simp [List.dropWhile]
  | cons x xs ih =>
    by_cases h : p x
    · simpa [List.dropWhile, h] using Nat.le_succ_of_le ih
    · simp [List.dropWhile, h]

/-- `strip_toc_block` (fuel-based structural recursion; the fuel is the line
count, which `stripTocGoFuelEnough` shows is always sufficient): scan maximal
runs of leading-enumeration lines; a run containing a strategy-1 heading is
always kept; otherwise a run meeting the TOC conditions is dropped. -/
def stripTocGo : Nat → List (List Char) → List (List Char)
  | _, [] => []
  | 0, l => l
  | fuel + 1, l :: ls =>
    if isEnumLine l then
      let buf := l :: ls.takeWhile isEnumLine
      let rest := ls.dropWhile isEnumLine
      if buf.any wouldMatchAnySectionHead then buf ++ stripTocGo fuel rest
      else if tocRunCond buf then stripTocGo fuel rest
      else buf ++ stripTocGo fuel rest
    else l :: stripTocGo fuel ls

def stripTocBlock (lines : List (List Char)) : List (List Char) :=
  stripTocGo lines.length lines

/-! ### Page-level protection and filtering -/

def suffixesAfterNl : List Char → List (List Char)
  | [] => []
  | c :: rest =>
    if c == '\n' then rest :: suffixesAfterNl rest else suffixesAfterNl rest

/-- The suffixes of a text starting at each line start, in order; the suffix
at index `i` is preceded by exactly `i` newline characters. -/
def lineStartSuffixes (text : List Char) : List (List Char) :=
  text :: suffixesAfterNl text

/-- `page_contains_section_head`: any strategy-1 pattern matched at any line
start (`re.MULTILINE`, spanning lines through the separator classes), or a
line accepted by the section-15 typo detector. -/
def pageContainsSectionHead (text : List Char) : Bool :=
  if text.isEmpty then false
  else
    let hay := mapSpecialWs text
    (lineStartSuffixes hay).any
      (fun suf => allKeys.any (fun k => (sectionPatterns k).any (fun p => reMatchAt p suf))) ||
    (splitNl hay).any isProbablyLegalSectionLine

/-- The page filter at the end of `extract_text_pages_hybrid`: a page with a
section heading is always kept, otherwise TOC pages are dropped. -/
def extractTextFilter (pages : List (List Char)) : List (List Char) :=
  pages.filter (fun t => pageContainsSectionHead t || !(isTocPage t))

/-! ### Candidate finding, scoring and boundary resolution -/

def badPhrases : List (List Char) :=
  [L "에는", L "에는 ", L "에 ", L "참조", L "아래 표", L "아래표", L "아래 기재", L "아래에", L "보기"]

/-- `looks_like_sentence`. -/
def looksLikeSentence (line : List Char) : Bool :=
  let s := pyStripEnds (mapSpecialWs line)
  badPhrases.any (fun p => containsSeq p s) ||
    (match s.getLast? with
     | some c => c == '.' || c == '。' || c == '．' || c == ':' || c == '：'
     | none => false)

/-- `find_all_section_starts` (strategy 1 over all lines; the composition key
additionally skips sentence-looking lines). -/
def findAllSectionStarts (lines : List (List Char)) (pats : List RE) (key : SectionKey) :
    List Nat :=
  lines.enum.filterMap (fun p =>
    let lc := mapSpecialWs p.2
    if pats.any (fun pat => reMatchAt pat lc) then
      if key == composition && looksLikeSentence lc then none else some p.1
    else none)

/-- Python slice `l[a:b]`. -/
def sliceList (l : List α) (a b : Nat) : List α := (l.drop a).take (b - a)

/-- `count_body_lines_between`: non-blank non-boilerplate lines strictly
between the start and end indices. -/
def countBodyLines (lines : List (List Char)) (s e : Nat) : Nat :=
  ((sliceList lines (s + 1) e).filter (fun ln => !(isBlank ln) && !(isHeaderLine ln))).length

/-- `has_composition_table_header_ahead`. -/
def hasCompTableAhead (lines : List (List Char)) (s look : Nat) : Bool :=
  let hay := mapSpecialWs (joinNl (sliceList lines (s + 1) (Nat.min lines.length (s + 1 + look))))
  [L "화학물질명", L "카스", L "CAS", L "함유량", L "성분표"].any (fun k => containsSeq k hay)

def headMatch (n : Nat) (line : List Char) : Bool := reMatchAt (secRE n) (mapSpecialWs line)

/-- First index `j ≥ i` whose line starts with the `sec(n)` grammar, else the
line count (`find_next_boundary_for` scans from `start + 1`; the fuel is the
line count, sufficient since the scan stops at the end of the lines). -/
def scanBoundaryGo (lines : List (List Char)) (n : Nat) : Nat → Nat → Nat
  | 0, _ => lines.length
  | fuel + 1, i =>
    if i < lines.length then
      if headMatch n (lines.getD i []) then i else scanBoundaryGo lines n fuel (i + 1)
    else lines.length

def findNextBoundaryFor (lines : List (List Char)) (start n : Nat) : Nat :=
  scanBoundaryGo lines n lines.length (start + 1)

/-- The trial end used when scoring a candidate start `s`: the configured
exact next-number boundary if any, else the nearest later candidate, else
the end of the document. -/
def trialEnd (lines : List (List Char)) (cands : List Nat) (key : SectionKey) (s : Nat) : Nat :=
  match boundaryNext key with
  | some n => findNextBoundaryFor lines s n
  | none =>
    match cands.filter (fun c => s < c) with
    | [] => lines.length
    | x :: xs => xs.foldl Nat.min x

/-- The (composition-adjusted) score of a candidate in `select_best_start`. -/
def candScore (lines : List (List Char)) (cands : List Nat) (key : SectionKey) (s : Nat) : Int :=
  let base : Int := countBodyLines lines s (trialEnd lines cands key s)
  if key == composition then
    base + (if hasCompTableAhead lines s 20 then 50 else 0) -
      (if looksLikeSentence (lines.getD s []) then 30 else 0)
  else base

/-- `select_best_start`, with the fold state `(best_idx, best_score)`
initialized to the last candidate and score `-1`. -/
def selectBestStart (lines : List (List Char)) (cands : List Nat) (key : SectionKey) : Int :=
  match cands with
  | [] => -1
  | c0 :: rest =>
    let last : Nat := (c0 :: rest).getLastD c0
    let step := fun (b : Int × Int) (s : Nat) =>
      let sc := candScore lines cands key s
      if sc > b.2 || (sc == b.2 && (s : Int) > b.1) then ((s : Int), sc) else b
    let fin := (c0 :: rest).foldl step ((last : Int), -1)
    if fin.2 ≤ 1 then (last : Int) else fin.1

/-- `find_section_start`: strategy 1, then strategy 2, then the global fuzzy
match (every key is present in `SECNUM` and `FUZZY_CANDIDATES`, so both
fallbacks always apply). -/
def findSectionStart (lines : List (List Char)) (pats : List RE) (key : SectionKey) : Int :=
  let cands := findAllSectionStarts lines pats key
  let cands :=
    if cands.isEmpty then
      lines.enum.filterMap (fun p =>
        if isProbablySectionLine p.2 (secnum key) then some p.1 else none)
    else cands
  if cands.isEmpty then fuzzyFindSectionLine (lines.map stripAllWs) (fuzzyCands key)
  else selectBestStart lines cands key

/-- `fallback_find_head`: line index of the first line-start multi-line match. -/
def fallbackFindHead (rx : RE) (fullText : List Char) : Int :=
  let txt := mapSpecialWs fullText
  match (lineStartSuffixes txt).findIdx? (fun suf => reMatchAt rx suf) with
  | some i => (i : Int)
  | none => -1

/-! ### The `extract_sections` pipeline -/

def rawTextOf (pages : List (List Char)) : List Char := joinNl (extractTextFilter pages)

def cleanLinesOf (pages : List (List Char)) : List (List Char) :=
  stripTocBlock (removeRepeatedHeaders (splitNl (rawTextOf pages)))

def cleanTextOf (pages : List (List Char)) : List Char := joinNl (cleanLinesOf pages)

def mapLookup (k : SectionKey) : List (SectionKey × α) → Option α
  | [] => none
  | p :: rest => if p.1 == k then some p.2 else mapLookup k rest

/-- The first phase of `section_positions`: one `find_section_start` call per
key, keys with result `-1` omitted (dict insertion order = catalog order). -/
def positionsPhase1 (lines : List (List Char)) : List (SectionKey × Nat) :=
  allKeys.filterMap (fun k =>
    let i := findSectionStart lines (sectionPatterns k) k
    if i == -1 then none else some (k, i.toNat))

/-- One step of a fallback pass: if the key is still absent and its
multi-line fallback regex matches the given text, append the found index. -/
def fallbackStep (text : List Char) (acc : List (SectionKey × Nat)) (k : SectionKey) :
    List (SectionKey × Nat) :=
  if (mapLookup k acc).isSome then acc
  else
    match fallbackRx k with
    | none => acc
    | some rx =>
      let i := fallbackFindHead rx text
      if i == -1 then acc else acc ++ [(k, i.toNat)]

/-- One fallback pass (`FALLBACK_HEAD_RXS` applied to a given text), adding
only keys that are still absent. -/
def addFallback (positions : List (SectionKey × Nat)) (text : List Char) :
    List (SectionKey × Nat) :=
  fallbackKeys.foldl (fallbackStep text) positions

def sectionPositionsOf (pages : List (List Char)) : List (SectionKey × Nat) :=
  let p1 := positionsPhase1 (cleanLinesOf pages)
  let p2 := addFallback p1 (rawTextOf pages)
  addFallback p2 (cleanTextOf pages)

/-- Stable insertion by start index (equal starts keep insertion order),
modelling Python's stable `sorted(..., key=lambda x: x[1])`. -/
def insByStart (x : SectionKey × Nat) : List (SectionKey × Nat) → List (SectionKey × Nat)
  | [] => [x]
  | y :: ys => if y.2 ≤ x.2 then y :: insByStart x ys else x :: y :: ys

def stableSortByStart (l : List (SectionKey × Nat)) : List (SectionKey × Nat) :=
  l.foldl (fun acc x => insByStart x acc) []

structure Resolved where
  key : SectionKey
  start : Nat
  stop : Nat
  body : List (List Char)
deriving DecidableEq, Repr

/-- `min(candidates_after)` when nonempty, else the line count. -/
def defaultEndFor (lines : List (List Char)) (positions : List (SectionKey × Nat))
    (start : Nat) : Nat :=
  match (positions.map (fun p => p.2)).filter (fun q => start < q) with
  | [] => lines.length
  | x :: xs => xs.foldl Nat.min x

/-- `is_product_name_line`. -/
def isProductNameLine (s : List Char) : Bool :=
  let line := lowerAll (pyStripEnds (mapSpecialWs s))
  reMatchAt
    (reSeqList
      [pySpaceStar,
       RE.opt (reAltList
         [reSeqList [lt "[", reAltList [lt "1", lt "①"], lt "]"],
          reSeqList [lt "1", pySpaceStar,
                     RE.opt (RE.cls (fun c => c == '.' || c == ')' || c == ':'))]]),
       pySpaceStar,
       reAltList [reSeqList [lt "제품", pySpaceStar, lt "명"], lt "제품명",
                  reSeqList [lt "product", pySpaceStar, lt "name"]],
       pySpaceStar, RE.opt (RE.cls (fun c => c == ':' || c == '：'))])
    line

/-- Resolution of one winning start: final end, the section-1 product-name
special case for the body start, and body filtering. -/
def resolveOne (lines : List (List Char)) (positions : List (SectionKey × Nat))
    (p : SectionKey × Nat) : Resolved :=
  let dEnd := defaultEndFor lines positions p.2
  let stop :=
    match boundaryNext p.1 with
    | some n => Nat.min dEnd (findNextBoundaryFor lines p.2 n)
    | none => dEnd
  let startLine := if p.2 < lines.length then lines.getD p.2 [] else []
  let bodyStart := if p.1 == companyInfo && isProductNameLine startLine then p.2 else p.2 + 1
  let body := (sliceList lines bodyStart stop).filter
    (fun ln => !(isBlank ln) && !(isHeaderLine ln))
  ⟨p.1, p.2, stop, body⟩

/-- The resolved sections, in order of increasing start index. -/
def resolvedOf (pages : List (List Char)) : List Resolved :=
  let lines := cleanLinesOf pages
  let positions := sectionPositionsOf pages
  if positions.isEmpty then []
  else (stableSortByStart positions).map (resolveOne lines positions)

/-- `extract_sections` from the list of page texts to the section map. -/
def extractSections (pages : List (List Char)) : List (SectionKey × List Char) :=
  (resolvedOf pages).map (fun r => (r.key, joinNl r.body))

/-! ### Spec-side definitions for the refinement claims -/

/-- Candidate selection exactly as the specification words it (C3), with no
per-section adjustment: the candidate with the highest body-line count over
its trial range wins, ties favor the later start, and a best score of at
most one body line forces the chronologically last candidate. -/
def selectBestClaim (lines : List (List Char)) (cands : List Nat) (key : SectionKey) : Int :=
  match cands with
  | [] => -1
  | c0 :: rest =>
    let cnt : Nat → Int := fun s =>
      (countBodyLines lines s (trialEnd lines (c0 :: rest) key s) : Int)
    let step := fun (b : Int × Int) (s : Nat) =>
      if cnt s > b.2 || (cnt s == b.2 && (s : Int) > b.1) then ((s : Int), cnt s) else b
    let fin := rest.foldl step (((c0 : Nat) : Int), cnt c0)
    if fin.2 ≤ 1 then (((c0 :: rest).getLastD c0 : Nat) : Int) else fin.1

/-- Decomposition of a line sequence into its maximal runs of consecutive
leading-enumeration lines and singleton non-enumeration lines, written after
the claim (C4); same fuel discipline as `stripTocGo`. -/
def tocBlocksSpec : Nat → List (List Char) → List (List (List Char))
  | _, [] => []
  | 0, l => [l]
  | fuel + 1, l :: ls =>
    if isEnumLine l then
      (l :: ls.takeWhile isEnumLine) :: tocBlocksSpec fuel (ls.dropWhile isEnumLine)
    else [l] :: tocBlocksSpec fuel ls

/-- The claim's removal predicate (C4): a block is discarded exactly when it
is an enumeration run of length at least 5 with at least 5 distinct numbers
all at most 16, average line length at most 40, at least half of its lines
containing a section keyword — and no line of the run matching a strategy-1
section heading pattern. -/
def tocDropSpec (b : List (List Char)) : Bool :=
  b.all isEnumLine && b.length ≥ 5 &&
  (b.filterMap parseEnumNum).dedup.length ≥ 5 &&
  (b.filterMap parseEnumNum).all (fun v => v ≤ 16) &&
  ((b.map List.length).foldl (· + ·) 0) ≤ 40 * b.length &&
  2 * (b.filter (fun ln => tocSectionKeys.any (fun kw => containsSeq kw ln))).length ≥ b.length &&
  !(b.any wouldMatchAnySectionHead)

/-! ### Concrete inputs for the counterexamples and witnesses -/

/-- One page whose only line is a section-1 heading: the resolved start is
the last line, so section 1 is present with an empty body (C10). -/
def soloHeadingPages : List (List Char) := [L "1. 화학제품과 회사에 관한 정보"]

/-- The input of Scenario A of the specification (C6): English headings. -/
def engPages : List (List Char) :=
  [L "1. Chemical Product and Company Information\nProduct name: Alpha-9\n2. Hazards Identification\nSignal word: Warning"]

/-- Scenario A with the two headings replaced by their Korean canonical
forms, leaving the two data lines unchanged (C6 amended). -/
def korPages : List (List Char) :=
  [L "1. 화학제품과 회사에 관한 정보\nProduct name: Alpha-9\n2. 유해성·위험성\nSignal word: Warning"]

/-- A document in which the section-15 heading line also carries a revision
label: it is collected as boilerplate from the first lines and removed, so
section 15 is found only by the raw-text multi-line fallback, whose raw line
index (1) coincides with the clean-line index of the section-10 heading.
Both sections then resolve to the same start with identical bodies (C1). -/
def tiedStartPages : List (List Char) :=
  [L "개정일자 2024-01-01\n15. 법적 규제현황 개정일자\n서문입니다\n10. 안정성 및 반응성\n가열을 피하시오\n강산화제 접촉 금지"]

/-- A two-section document with distinct resolved starts (C1 witness). -/
def twoSectionPages : List (List Char) :=
  [L "3. 구성성분\n벤젠 1%\n4. 응급조치요령\n물로 씻는다"]

/-- A one-section document for the exact-boundary invariant (C2 witness). -/
def disposalPages : List (List Char) :=
  [L "13. 폐기 시 주의사항\n소각 처리\n전용 용기 사용"]

/-- A one-section document for the boundary-resolution formula (C5 witness). -/
def ecoPages : List (List Char) :=
  [L "12. 환경에 미치는 영향\n어독성 자료 있음\n잔류성 낮음"]

/-- Lines with two composition-heading candidates: the first has body count
1 but a composition-table header ahead (+50), the second has body count 5;
the source selects the first, refuting the plain highest-body-count rule for
the composition section (C3 counterexample). -/
def compositionLines : List (List Char) :=
  [L "3. 구성성분", L "화학물질명 함유량", L "4. 응급조치요령", L "3. 구성성분",
   L "가열 주의", L "보관 주의", L "환기 필요", L "장갑 착용", L "세척 권장"]

/-- Scenario D lines (C3 witness): the section-9 heading appears at index 0
with body count 0 (the section-10 heading follows immediately) and at index
2 followed by 40 body lines. -/
def scenarioDLines : List (List Char) :=
  [L "9. 물리화학적 특성", L "10. 안정성 및 반응성", L "9. 물리화학적 특성"] ++
    List.replicate 40 (L "가")

/-! ### Supporting lemmas -/

theorem foldlMinLeInit (ys : List Nat) (z : Nat) : ys.foldl Nat.min z ≤ z := by
  induction ys generalizing z with
  | nil => simp
  | cons y ys ih => exact le_trans (ih (Nat.min z y)) (Nat.min_le_left z y)

theorem foldlMinLeMem (ys : List Nat) (z a : Nat) (h : a ∈ ys) : ys.foldl Nat.min z ≤ a := by
  induction ys generalizing z with
  | nil => cases h
  | cons y ys ih =>
    rcases List.mem_cons.mp h with h | h
    · subst h
      exact le_trans (foldlMinLeInit ys (Nat.min z a)) (Nat.min_le_right z a)
    · exact ih (Nat.min z y) h

theorem defaultEndLe (lines : List (List Char)) (positions : List (SectionKey × Nat))
    (s : Nat) (q : SectionKey × Nat) (hmem : q ∈ positions) (hlt : s < q.2) :
    defaultEndFor lines positions s ≤ q.2 := by
  unfold defaultEndFor
  have ht : q.2 ∈ (positions.map (fun p => p.2)).filter (fun v => decide (s < v)) := by
    refine List.mem_filter.mpr ⟨List.mem_map.mpr ⟨q, hmem, rfl⟩, by simpa using hlt⟩
  cases hf : (positions.map (fun p => p.2)).filter (fun v => decide (s < v)) with
  | nil => rw [hf] at ht; cases ht
  | cons x xs =>
    rw [hf] at ht
    rcases List.mem_cons.mp ht with h | h
    · rw [h]; exact foldlMinLeInit xs x
    · exact foldlMinLeMem xs x q.2 h

theorem memInsByStart (x y : SectionKey × Nat) (l : List (SectionKey × Nat)) :
    y ∈ insByStart x l ↔ y = x ∨ y ∈ l := by
  induction l with
  | nil => simp [insByStart]
  | cons z zs ih =>
    by_cases h : z.2 ≤ x.2
    · simp only [insByStart, if_pos h, List.mem_cons, ih]
      tauto
    · simp only [insByStart, if_neg h, List.mem_cons]

theorem memStableSortAux (l acc : List (SectionKey × Nat)) (y : SectionKey × Nat) :
    y ∈ l.foldl (fun a x => insByStart x a) acc ↔ y ∈ acc ∨ y ∈ l := by
  induction l generalizing acc with
  | nil => simp
  | cons z zs ih =>
    rw [List.foldl_cons, ih, memInsByStart]
    simp only [List.mem_cons]
    tauto

theorem memStableSort (l : List (SectionKey × Nat)) (y : SectionKey × Nat) :
    y ∈ stableSortByStart l ↔ y ∈ l := by
  unfold stableSortByStart
  rw [memStableSortAux]
  simp

theorem resolveOneKey (lines : List (List Char)) (positions : List (SectionKey × Nat))
    (p : SectionKey × Nat) : (resolveOne lines positions p).key = p.1 := rfl

theorem resolveOneStart (lines : List (List Char)) (positions : List (SectionKey × Nat))
    (p : SectionKey × Nat) : (resolveOne lines positions p).start = p.2 := rfl

theorem resolveOneStopLe (lines : List (List Char)) (positions : List (SectionKey × Nat))
    (p : SectionKey × Nat) :
    (resolveOne lines positions p).stop ≤ defaultEndFor lines positions p.2 := by
  unfold resolveOne
  cases h : boundaryNext p.1 with
  | none => simp [h]
  | some n => simp [h, Nat.min_le_left]

theorem memResolvedOf (pages : List (List Char)) (r : Resolved) (h : r ∈ resolvedOf pages) :
    ∃ p ∈ sectionPositionsOf pages,
      r = resolveOne (cleanLinesOf pages) (sectionPositionsOf pages) p := by
  unfold resolvedOf at h
  by_cases he : (sectionPositionsOf pages).isEmpty
  · simp only [he, if_pos] at h
    cases h
  · simp only [he, if_neg, Bool.false_eq_true, not_false_eq_true] at h
    obtain ⟨p, hp, hr⟩ := List.mem_map.mp h
    exact ⟨p, (memStableSort _ _).mp hp, hr.symm⟩

theorem memSlice {xs : List (List Char)} {a b : Nat} {l : List Char}
    (h : l ∈ sliceList xs a b) :
    ∃ j, a ≤ j ∧ j < b ∧ j < xs.length ∧ xs.getD j [] = l := by
  unfold sliceList at h
  obtain ⟨i, hi, he⟩ := List.mem_iff_getElem.mp h
  rw [List.length_take, List.length_drop, lt_inf_iff] at hi
  rw [List.getElem_take, List.getElem_drop] at he
  exact ⟨a + i, by omega, by omega, by omega,
    by rw [List.getD_eq_getElem _ _ (by omega)]; exact he⟩

theorem scanBoundaryNone (lines : List (List Char)) (n : Nat) :
    ∀ fuel i j, lines.length ≤ fuel + i → i ≤ j →
      j < scanBoundaryGo lines n fuel i → j < lines.length →
      headMatch n (lines.getD j []) = false := by
  intro fuel
  induction fuel with
  | zero =>
    intro i j hfi _ hlt hjl
    simp only [scanBoundaryGo] at hlt
    omega
  | succ fuel ih =>
    intro i j hfi hij hlt hjl
    by_cases hi : i < lines.length
    · simp only [scanBoundaryGo, if_pos hi] at hlt
      by_cases hm : headMatch n (lines.getD i []) = true
      · rw [if_pos hm] at hlt
        omega
      · rw [if_neg hm] at hlt
        rcases Nat.eq_or_lt_of_le hij with he | hgt
        · rw [← he]
          exact Bool.not_eq_true _ ▸ (Bool.eq_false_iff.mpr hm)
        · exact ih (i + 1) j (by omega) hgt hlt hjl
    · simp only [scanBoundaryGo, if_neg hi] at hlt
      omega

theorem findNextBoundaryNone (lines : List (List Char)) (start n j : Nat)
    (h1 : start < j) (h2 : j < findNextBoundaryFor lines start n) (h3 : j < lines.length) :
    headMatch n (lines.getD j []) = false :=
  scanBoundaryNone lines n lines.length (start + 1) j (by omega) (by omega) h2 h3

/-! ### Claim theorems -/

/-- C1 (amended): in the map returned by `extract_sections`, resolved
sections whose start indices are distinct never overlap: whenever one
resolved section starts strictly before another, the earlier one's end
index is at most the later one's start index.  (Two distinct keys can
resolve to the same start index — see the counterexample — and then their
ranges coincide.) -/
theorem c1_nonoverlap_distinct (pages : List (List Char)) (r1 r2 : Resolved)
    (h1 : r1 ∈ resolvedOf pages) (h2 : r2 ∈ resolvedOf pages)
    (hlt : r1.start < r2.start) : r1.stop ≤ r2.start := by
  obtain ⟨p1, _, e1⟩ := memResolvedOf pages r1 h1
  obtain ⟨p2, hp2, e2⟩ := memResolvedOf pages r2 h2
  subst e1
  subst e2
  calc (resolveOne _ _ p1).stop
      ≤ defaultEndFor (cleanLinesOf pages) (sectionPositionsOf pages) p1.2 :=
        resolveOneStopLe _ _ p1
    _ ≤ p2.2 := defaultEndLe _ _ p1.2 p2 hp2 hlt

/-- C2: for every input and every section key with a configured next-number
boundary, the extracted body contains no line whose leading token matches
the configured next section number under the `sec(n)` numeric-prefix
grammar: the chosen end index is at most the first such line index after
the chosen start. -/
theorem c2_exact_boundary (pages : List (List Char)) (r : Resolved) (n : Nat)
    (l : List Char) (hr : r ∈ resolvedOf pages) (hb : boundaryNext r.key = some n)
    (hl : l ∈ r.body) : headMatch n l = false := by
  obtain ⟨p, _, e⟩ := memResolvedOf pages r hr
  subst e
  rw [resolveOneKey] at hb
  have hkey : p.1 ≠ SectionKey.companyInfo := by
    intro e
    rw [e] at hb
    simp [boundaryNext] at hb
  have hbeq : (p.1 == SectionKey.companyInfo) = false := beq_eq_false_iff_ne.mpr hkey
  unfold resolveOne at hl
  simp only [hb, hbeq, Bool.false_and, if_neg (by simp : ¬(false = true))] at hl
  obtain ⟨hls, hlm⟩ := List.mem_filter.mp hl
  obtain ⟨j, hj1, hj2, hj3, hj4⟩ := memSlice hls
  have hjb : j < findNextBoundaryFor (cleanLinesOf pages) p.2 n :=
    lt_of_lt_of_le hj2 (Nat.min_le_right _ _)
  have := findNextBoundaryNone (cleanLinesOf pages) p.2 n j (by omega) hjb hj3
  rw [hj4] at this
  exact this

theorem mapLookupNoneIff {α : Type} (k : SectionKey) (ps : List (SectionKey × α)) :
    mapLookup k ps = none ↔ ∀ p ∈ ps, p.1 ≠ k := by
  induction ps with
  | nil => simp [mapLookup]
  | cons q qs ih =>
    by_cases h : q.1 == k
    · simp only [mapLookup, if_pos h]
      constructor
      · intro hc
        cases hc
      · intro hall
        exact absurd (beq_iff_eq.mp h) (hall q (List.mem_cons_self q qs))
    · simp only [mapLookup, if_neg h, ih, List.mem_cons]
      constructor
      · intro hall p hp
        rcases hp with hp | hp
        · rw [hp]
          exact beq_eq_false_iff_ne.mp (Bool.eq_false_iff.mpr h)
        · exact hall p hp
      · intro hall p hp
        exact hall p (Or.inr hp)

theorem mapLookupAppendNone {α : Type} (k : SectionKey) (l1 l2 : List (SectionKey × α))
    (h : mapLookup k l1 = none) : mapLookup k (l1 ++ l2) = mapLookup k l2 := by
  induction l1 with
  | nil => simp
  | cons q qs ih =>
    by_cases hq : q.1 == k
    · simp only [mapLookup, if_pos hq] at h
      cases h
    · simp only [mapLookup, if_neg hq] at h
      simpa [mapLookup, hq] using ih h

theorem phase1NoneOfFail (lines : List (List Char)) (k : SectionKey)
    (h : findSectionStart lines (sectionPatterns k) k = -1) :
    mapLookup k (positionsPhase1 lines) = none := by
  rw [mapLookupNoneIff]
  intro p hp
  obtain ⟨a, _, hfa⟩ := List.mem_filterMap.mp hp
  by_cases hi : (findSectionStart lines (sectionPatterns a) a == -1)
  · simp only [positionsPhase1] at hfa
    rw [if_pos hi] at hfa
    cases hfa
  · simp only [positionsPhase1] at hfa
    rw [if_neg hi] at hfa
    have hpa : p.1 = a := by
      cases hfa
      rfl
    rw [hpa]
    intro e
    rw [e] at hi
    exact hi (by simp [h])

theorem fallbackFoldNone (k : SectionKey) (text : List Char)
    (hk : ∀ rx, fallbackRx k = some rx → fallbackFindHead rx text = -1) :
    ∀ ks : List SectionKey, ∀ acc, mapLookup k acc = none →
      mapLookup k (ks.foldl (fallbackStep text) acc) = none := by
  intro ks
  induction ks with
  | nil => intro acc h; exact h
  | cons k2 ks ih =>
    intro acc h
    rw [List.foldl_cons]
    apply ih
    unfold fallbackStep
    by_cases hs : (mapLookup k2 acc).isSome
    · rw [if_pos hs]
      exact h
    · rw [if_neg hs]
      cases hrx : fallbackRx k2 with
      | none => exact h
      | some rx =>
        simp only []
        by_cases hneg : (fallbackFindHead rx text == -1)
        · rw [if_pos hneg]
          exact h
        · rw [if_neg hneg]
          rw [mapLookupAppendNone k _ _ h]
          have hne : k2 ≠ k := by
            intro e
            subst e
            exact hneg (by simp [hk rx hrx])
          simp [mapLookup, beq_eq_false_iff_ne.mpr hne]

theorem positionsNoneOfFail (pages : List (List Char)) (k : SectionKey)
    (h1 : findSectionStart (cleanLinesOf pages) (sectionPatterns k) k = -1)
    (h2 : ∀ rx, fallbackRx k = some rx → fallbackFindHead rx (rawTextOf pages) = -1)
    (h3 : ∀ rx, fallbackRx k = some rx → fallbackFindHead rx (cleanTextOf pages) = -1) :
    mapLookup k (sectionPositionsOf pages) = none := by
  unfold sectionPositionsOf addFallback
  exact fallbackFoldNone k _ h3 fallbackKeys _
    (fallbackFoldNone k _ h2 fallbackKeys _ (phase1NoneOfFail _ k h1))

/-- C8: if none of the four strategies (strategy-1 line patterns, the
AND-gated keyword fallback and the global fuzzy match — all three inside
`find_section_start` — and the multi-line fallback regex applied to the raw
and then to the clean text) produces a candidate start for a key, then that
key is simply absent from the returned map; no placeholder entry exists. -/
theorem c8_absent_key (pages : List (List Char)) (k : SectionKey)
    (h1 : findSectionStart (cleanLinesOf pages) (sectionPatterns k) k = -1)
    (h2 : ∀ rx, fallbackRx k = some rx → fallbackFindHead rx (rawTextOf pages) = -1)
    (h3 : ∀ rx, fallbackRx k = some rx → fallbackFindHead rx (cleanTextOf pages) = -1) :
    mapLookup k (extractSections pages) = none := by
  rw [mapLookupNoneIff]
  intro q hq
  obtain ⟨r, hr, he⟩ := List.mem_map.mp hq
  obtain ⟨p, hp, e⟩ := memResolvedOf pages r hr
  have hpk : p.1 ≠ k :=
    (mapLookupNoneIff k _).mp (positionsNoneOfFail pages k h1 h2 h3) p hp
  rw [← he]
  have : r.key = p.1 := by
    rw [e]
    exact resolveOneKey _ _ p
  rw [this]
  exact hpk

/-- C7: segmentation is deterministic — the pipeline from the page texts to
the section map is a pure function, so two runs on equal inputs produce
byte-identical maps. -/
theorem c7_deterministic (p1 p2 : List (List Char)) (h : p1 = p2) :
    extractSections p1 = extractSections p2 := congrArg extractSections h

theorem candScoreEq (lines : List (List Char)) (cands : List Nat) (key : SectionKey)
    (s : Nat) (h : key ≠ composition) :
    candScore lines cands key s = (countBodyLines lines s (trialEnd lines cands key s) : Int) := by
  unfold candScore
  rw [if_neg]
  rw [beq_eq_false_iff_ne.mpr h]
  simp

theorem foldlCongrFn {α β : Type} (l : List β) (f g : α → β → α) (b : α)
    (h : ∀ x s, f x s = g x s) : l.foldl f b = l.foldl g b := by
  induction l generalizing b with
  | nil => rfl
  | cons x xs ih =>
    simp only [List.foldl_cons, h]
    exact ih (g b x)

/-- C3 (amended): for every section other than the composition section,
`select_best_start` agrees with the specification's rule (highest body-line
count over the trial range, ties to the later start, chronologically last
candidate whenever the best body count is at most 1); the composition
section additionally scores a +50 table-header bonus and a −30
sentence-heading penalty, so the plain rule can be overridden there. -/
theorem c3_select_eq_claim (lines : List (List Char)) (cands : List Nat) (key : SectionKey)
    (h : key ≠ composition) :
    selectBestStart lines cands key = selectBestClaim lines cands key := by
  cases cands with
  | nil => rfl
  | cons c0 rest =>
    unfold selectBestStart selectBestClaim
    simp only [List.foldl_cons]
    have hstep : ∀ (b : Int × Int) (s : Nat),
        (if candScore lines (c0 :: rest) key s > b.2 ||
            (candScore lines (c0 :: rest) key s == b.2 && ((s : Int) > b.1)) then
          ((s : Int), candScore lines (c0 :: rest) key s)
        else b) =
        (if (countBodyLines lines s (trialEnd lines (c0 :: rest) key s) : Int) > b.2 ||
            ((countBodyLines lines s (trialEnd lines (c0 :: rest) key s) : Int) == b.2 &&
              ((s : Int) > b.1)) then
          ((s : Int), (countBodyLines lines s (trialEnd lines (c0 :: rest) key s) : Int))
        else b) := by
      intro b s
      rw [candScoreEq lines (c0 :: rest) key s h]
    have hfirst :
        (if candScore lines (c0 :: rest) key c0 > ((-1 : Int)) ||
            (candScore lines (c0 :: rest) key c0 == (-1 : Int) &&
              ((c0 : Int) > (((c0 :: rest).getLastD c0 : Nat) : Int))) then
          ((c0 : Int), candScore lines (c0 :: rest) key c0)
        else ((((c0 :: rest).getLastD c0 : Nat) : Int), -1)) =
        ((c0 : Int), (countBodyLines lines c0 (trialEnd lines (c0 :: rest) key c0) : Int)) := by
      rw [candScoreEq lines (c0 :: rest) key c0 h]
      have hgt : (-1 : Int) < (countBodyLines lines c0 (trialEnd lines (c0 :: rest) key c0) : Int) :=
        lt_of_lt_of_le (by norm_num) (Int.natCast_nonneg _)
      simp [hgt]
    rw [hfirst]
    rw [foldlCongrFn rest _ _ _ hstep]

theorem foldlMaxLeIff (xs : List Nat) (z c : Nat) :
    xs.foldl Nat.max z ≤ c ↔ z ≤ c ∧ ∀ x ∈ xs, x ≤ c := by
  induction xs generalizing z with
  | nil => simp
  | cons y ys ih =>
    rw [List.foldl_cons, ih]
    simp only [Nat.max_le, List.mem_cons]
    constructor
    · rintro ⟨⟨hz, hy⟩, hall⟩
      exact ⟨hz, fun x hx => hx.elim (fun e => e ▸ hy) (hall x)⟩
    · rintro ⟨hz, hall⟩
      exact ⟨⟨hz, hall y (Or.inl rfl)⟩, fun x hx => hall x (Or.inr hx)⟩

theorem maxListLeIff (l : List Nat) (c : Nat) : maxList l ≤ c ↔ ∀ x ∈ l, x ≤ c := by
  cases l with
  | nil => simp [maxList]
  | cons x xs =>
    unfold maxList
    rw [foldlMaxLeIff]
    simp only [List.mem_cons]
    constructor
    · rintro ⟨hx, hall⟩ y hy
      exact hy.elim (fun e => e ▸ hx) (hall y)
    · intro hall
      exact ⟨hall x (Or.inl rfl), fun y hy => hall y (Or.inr hy)⟩

theorem maxDedupLeAll (nums : List Nat) :
    (decide (maxList nums.dedup ≤ 16)) = nums.all (fun v => decide (v ≤ 16)) := by
  by_cases hp : maxList nums.dedup ≤ 16
  · rw [decide_eq_true hp]
    symm
    rw [List.all_eq_true]
    intro x hx
    simpa using (maxListLeIff _ 16).mp hp x (List.mem_dedup.mpr hx)
  · rw [decide_eq_false hp]
    symm
    rw [Bool.eq_false_iff]
    intro hall
    apply hp
    rw [maxListLeIff]
    intro x hx
    simpa using List.all_eq_true.mp hall x (List.mem_dedup.mp hx)

theorem tocDropSpecEq (buf : List (List Char)) :
    tocDropSpec buf =
      (buf.all isEnumLine && (tocRunCond buf && !(buf.any wouldMatchAnySectionHead))) := by
  unfold tocDropSpec tocRunCond
  rw [← maxDedupLeAll]
  simp only [Bool.and_assoc]

theorem runAllEnum (l : List Char) (ls : List (List Char)) (he : isEnumLine l = true) :
    (l :: ls.takeWhile isEnumLine).all isEnumLine = true := by
  rw [List.all_eq_true]
  intro x hx
  rcases List.mem_cons.mp hx with hx | hx
  · rw [hx]
    exact he
  · exact List.mem_takeWhile_imp hx

theorem stripTocGoSpec :
    ∀ fuel lines, lines.length ≤ fuel →
      stripTocGo fuel lines =
        ((tocBlocksSpec fuel lines).filter (fun b => !(tocDropSpec b))).flatten := by
  intro fuel
  induction fuel with
  | zero =>
    intro lines h
    have : lines = [] := List.length_eq_zero.mp (Nat.le_zero.mp h)
    subst this
    rfl
  | succ fuel ih =>
    intro lines h
    cases lines with
    | nil => rfl
    | cons l ls =>
      have hls : ls.length ≤ fuel := by
        simp only [List.length_cons] at h
        omega
      have hrest : (ls.dropWhile isEnumLine).length ≤ fuel :=
        le_trans (dropWhileLenLe _ ls) hls
      by_cases he : isEnumLine l = true
      · simp only [stripTocGo, tocBlocksSpec, if_pos he]
        have hall := runAllEnum l ls he
        by_cases hh : (l :: ls.takeWhile isEnumLine).any wouldMatchAnySectionHead = true
        · have hdrop : tocDropSpec (l :: ls.takeWhile isEnumLine) = false := by
            rw [tocDropSpecEq, hh]
            simp
          rw [if_pos hh, List.filter_cons, hdrop]
          simp only [Bool.not_false, if_pos, List.flatten_cons]
          rw [ih _ hrest]
        · by_cases hc : tocRunCond (l :: ls.takeWhile isEnumLine) = true
          · have hdrop : tocDropSpec (l :: ls.takeWhile isEnumLine) = true := by
              rw [tocDropSpecEq, hall, hc, Bool.eq_false_iff.mpr hh]
              rfl
            rw [if_neg hh, if_pos hc, List.filter_cons, hdrop]
            simp only [Bool.not_true, Bool.false_eq_true, if_neg, not_false_eq_true]
            exact ih _ hrest
          · have hdrop : tocDropSpec (l :: ls.takeWhile isEnumLine) = false := by
              rw [tocDropSpecEq, Bool.eq_false_iff.mpr hc]
              simp
            rw [if_neg hh, if_neg hc, List.filter_cons, hdrop]
            simp only [Bool.not_false, if_pos, List.flatten_cons]
            rw [ih _ hrest]
      · simp only [stripTocGo, tocBlocksSpec, if_neg he]
        have hdrop : tocDropSpec [l] = false := by
          rw [tocDropSpecEq]
          simp [List.all_cons, Bool.eq_false_iff.mpr he]
        rw [List.filter_cons, hdrop]
        simp only [Bool.not_false, if_pos, List.flatten_cons]
        rw [ih _ hls]
        rfl

/-- C4: `strip_toc_block` removes a maximal run of consecutive
leading-enumeration lines if and only if the run has length at least 5, at
least 5 distinct numbers all at most 16, average line length at most 40,
at least half of its lines containing a section keyword, and no line of
the run matching a strategy-1 heading; every other block — in particular
every run containing a strategy-1 heading line — appears verbatim, in
order, in the cleaned sequence. -/
theorem c4_toc_removal (lines : List (List Char)) :
    stripTocBlock lines =
      ((tocBlocksSpec lines.length lines).filter (fun b => !(tocDropSpec b))).flatten :=
  stripTocGoSpec lines.length lines (le_refl _)

/-- C5 (amended): in this full 16-section variant the exact next-number
boundary table covers exactly the sections numbered 3 through 15, each
mapped to its successor `N + 1`; sections 1, 2 and the terminal section 16
have no configured successor.  For a configured section the final end index
is the minimum of the generic next-candidate start and the exact
next-number boundary, and an unconfigured section runs to the next accepted
section of any kind or to the end of the document. -/
theorem c5_boundary_config :
    (∀ k : SectionKey, (boundaryNext k).isSome ↔ (3 ≤ secnum k ∧ secnum k ≤ 15)) ∧
    (∀ k n, boundaryNext k = some n → n = secnum k + 1) ∧
    (∀ pages r n, r ∈ resolvedOf pages → boundaryNext r.key = some n →
      r.stop = Nat.min (defaultEndFor (cleanLinesOf pages) (sectionPositionsOf pages) r.start)
        (findNextBoundaryFor (cleanLinesOf pages) r.start n)) ∧
    (∀ pages r, r ∈ resolvedOf pages → boundaryNext r.key = none →
      r.stop = defaultEndFor (cleanLinesOf pages) (sectionPositionsOf pages) r.start) := by
  refine ⟨?_, ?_, ?_, ?_⟩
  · intro k
    cases k <;> simp [boundaryNext, secnum]
  · intro k n h
    cases k <;> simp [boundaryNext, secnum] at h ⊢ <;> omega
  · intro pages r n hr hb
    obtain ⟨p, _, e⟩ := memResolvedOf pages r hr
    subst e
    rw [resolveOneKey] at hb
    show (resolveOne _ _ p).stop = _
    unfold resolveOne
    simp only [hb]
  · intro pages r hr hb
    obtain ⟨p, _, e⟩ := memResolvedOf pages r hr
    subst e
    rw [resolveOneKey] at hb
    show (resolveOne _ _ p).stop = _
    unfold resolveOne
    simp only [hb]

/-- C9 (amended): `is_header_line` never fires on a line containing the
guard phrase "본 MSDS는", and the bare document-title patterns fire only on
lines whose normalized form is exactly the title; but the label patterns
(document number, revision date/number, GHS-MSDS marker, page markers,
revision and copyright notices) are substring searches, so they fire on any
line embedding them — even inside longer running prose. -/
theorem c9_header_detector :
    (∀ line, containsSeq (L "본msds는") (normalizeText line) = true →
      isHeaderLine line = false) ∧
    isHeaderLine (L "물질안전보건자료") = true ∧
    isHeaderLine (L "물질안전보건자료 에 관한 기준") = false ∧
    isHeaderLine (L "본 문서의 개정일자 이후 변경 사항은 반영되지 않습니다") = true := by
  refine ⟨?_, by decide, by decide, by decide⟩
  intro line h
  unfold isHeaderLine
  rw [if_pos h]

/-! ### Concrete evaluations -/

theorem engEval : extractSections engPages = [] := rfl

theorem korEval :
    extractSections korPages =
      [(companyInfo, L "Product name: Alpha-9"), (hazards, L "Signal word: Warning")] := rfl

theorem tiedEval :
    (resolvedOf tiedStartPages).map (fun r => (r.key, r.start, r.stop, r.body)) =
      [(stability, 1, 4, [L "가열을 피하시오", L "강산화제 접촉 금지"]),
       (regulatory, 1, 4, [L "가열을 피하시오", L "강산화제 접촉 금지"])] := rfl

theorem twoSecEval :
    resolvedOf twoSectionPages =
      [⟨composition, 0, 2, [L "벤젠 1%"]⟩, ⟨firstAid, 2, 4, [L "물로 씻는다"]⟩] := rfl

theorem disposalEval :
    resolvedOf disposalPages = [⟨disposal, 0, 3, [L "소각 처리", L "전용 용기 사용"]⟩] := rfl

theorem ecoEval :
    resolvedOf ecoPages = [⟨ecoImpact, 0, 3, [L "어독성 자료 있음", L "잔류성 낮음"]⟩] := rfl

/-! ### Counterexamples and witnesses -/

/-- C1 (counterexample): on `tiedStartPages` the keys 안정성및반응성 and
법적규제 resolve to the same start index 1 (the latter through the raw-text
fallback, whose raw line index is used directly against the clean lines);
sorted by start index the earlier section's end (4) exceeds the next
section's start (1), and the two bodies share their lines. -/
theorem c1_overlap_counterexample :
    (resolvedOf tiedStartPages).map (fun r => (r.key, r.start, r.stop, r.body)) =
      [(stability, 1, 4, [L "가열을 피하시오", L "강산화제 접촉 금지"]),
       (regulatory, 1, 4, [L "가열을 피하시오", L "강산화제 접촉 금지"])] ∧
    ¬((4 : Nat) ≤ 1) := ⟨tiedEval, by omega⟩

theorem c1_witness :
    (Resolved.mk composition 0 2 [L "벤젠 1%"]).stop ≤
      (Resolved.mk firstAid 2 4 [L "물로 씻는다"]).start :=
  c1_nonoverlap_distinct twoSectionPages _ _
    (by rw [twoSecEval]; exact List.mem_cons_self _ _)
    (by rw [twoSecEval]; exact List.mem_cons_of_mem _ (List.mem_singleton.mpr rfl))
    (by decide)

theorem c2_witness : headMatch 14 (L "소각 처리") = false :=
  c2_exact_boundary disposalPages ⟨disposal, 0, 3, [L "소각 처리", L "전용 용기 사용"]⟩ 14
    (L "소각 처리")
    (by rw [disposalEval]; exact List.mem_singleton.mpr rfl)
    rfl
    (List.mem_cons_self _ _)

/-- C3 (counterexample): for the composition section the candidate at index
0 has body count 1 against 5 for the candidate at index 3, yet
`select_best_start` picks index 0 (a +50 table-header bonus), refuting the
highest-body-count rule as stated. -/
theorem c3_composition_counterexample :
    findAllSectionStarts compositionLines (sectionPatterns composition) composition = [0, 3] ∧
    countBodyLines compositionLines 0 (trialEnd compositionLines [0, 3] composition 0) = 1 ∧
    countBodyLines compositionLines 3 (trialEnd compositionLines [0, 3] composition 3) = 5 ∧
    selectBestStart compositionLines [0, 3] composition = 0 ∧ (0 : Int) ≠ 3 :=
  ⟨rfl, rfl, rfl, rfl, by norm_num⟩

theorem c3_witness :
    selectBestStart scenarioDLines [0, 2] physChem = 2 ∧
    countBodyLines scenarioDLines 0 (trialEnd scenarioDLines [0, 2] physChem 0) = 0 ∧
    countBodyLines scenarioDLines 2 (trialEnd scenarioDLines [0, 2] physChem 2) = 40 :=
  ⟨(c3_select_eq_claim scenarioDLines [0, 2] physChem (by decide)).trans rfl, rfl, rfl⟩

/-- C5 (counterexample): sections 1 and 2 are non-terminal canonical
sections (numbers 1 and 2, both at most 15) with no configured next-number
boundary, refuting "every section N from 1 to 15 has a boundary N→N+1". -/
theorem c5_missing_boundary_counterexample :
    boundaryNext companyInfo = none ∧ secnum companyInfo = 1 ∧
    boundaryNext hazards = none ∧ secnum hazards = 2 := by decide

theorem c5_witness :
    (4 = secnum composition + 1) ∧
    (Resolved.mk ecoImpact 0 3 [L "어독성 자료 있음", L "잔류성 낮음"]).stop =
      Nat.min (defaultEndFor (cleanLinesOf ecoPages) (sectionPositionsOf ecoPages) 0)
        (findNextBoundaryFor (cleanLinesOf ecoPages) 0 13) :=
  ⟨c5_boundary_config.2.1 composition 4 rfl,
   c5_boundary_config.2.2.1 ecoPages _ 13 (by rw [ecoEval]; exact List.mem_singleton.mpr rfl) rfl⟩

/-- C6 (counterexample): on the documented English-heading input the map is
empty — neither section 1 nor section 2 is present, and in particular
section 1 does not map to the claimed body line. -/
theorem c6_scenario_counterexample :
    extractSections engPages = [] ∧
    mapLookup companyInfo (extractSections engPages) ≠ some (L "Product name: Alpha-9") := by
  refine ⟨engEval, ?_⟩
  rw [engEval]
  intro h
  cases h

/-- C6 (amended): the English-heading input of Scenario A yields the empty
map (the heading catalog is Korean-specific); with the two headings
replaced by their Korean canonical forms, section 1's body is exactly
"Product name: Alpha-9" and section 2's body is exactly
"Signal word: Warning". -/
theorem c6_scenario_amended :
    extractSections engPages = [] ∧
    extractSections korPages =
      [(companyInfo, L "Product name: Alpha-9"), (hazards, L "Signal word: Warning")] :=
  ⟨engEval, korEval⟩

theorem c7_witness : extractSections korPages = extractSections korPages :=
  c7_deterministic korPages korPages rfl

theorem c8_witness : mapLookup composition (extractSections engPages) = none :=
  c8_absent_key engPages composition rfl
    (fun rx h => by injection h with h2; rw [← h2]; rfl)
    (fun rx h => by injection h with h2; rw [← h2]; rfl)

/-- C9 (counterexample): a running-prose sentence merely embedding the
boilerplate label 개정일자 (revision date) still triggers the detector. -/
theorem c9_prose_counterexample :
    isHeaderLine (L "본 문서의 개정일자 이후 변경 사항은 반영되지 않습니다") = true := by decide

theorem c9_witness : isHeaderLine (L "안내 본 MSDS는 참고용입니다") = false :=
  c9_header_detector.1 (L "안내 본 MSDS는 참고용입니다") rfl

/-- C10: a returned map can contain a canonical key whose body text is the
empty string: on a one-line document consisting only of the section-1
heading, the key is present and maps to the empty body, which is distinct
from the key being absent. -/
theorem c10_present_empty_body :
    mapLookup companyInfo (extractSections soloHeadingPages) = some [] ∧
    (some ([] : List Char) ≠ none) := ⟨rfl, Option.some_ne_none _⟩

end Msds
